import Mathlib

/-!
# Verification of the Sheet-music clef-conversion core

A shallow embedding of the core pipeline of the clef-conversion
repository: the clef transposer (`src/core/clef_converter.py`), the
timing normalizer (`src/core/midi_converter.py`), the heuristic note
detector (`src/core/omr_engine.py`), the image preprocessor
(`src/core/image_preprocessor.py`) and the pipeline progress tracker
(`src/core/converter.py`).

Python floats are modelled as rationals (`ℚ`), Python ints as `ℤ`/`ℕ`.
External library primitives (OpenCV / PIL calls) are abstracted as
oracle parameters; everything else is translated directly from the
source.
-/

namespace ClefConv

/-- Modelled from the spec: the `Note` data class lives in
`src/models/note.py`, which is absent from the provided sources; §3 of
the spec describes a NoteCandidate as {pitch, staffPosition, startTime,
duration, velocity, accidental/tie/dot flags}.  Constructor calls in
the provided sources omit some keyword arguments, so the model gives
the flags a default of `false` and velocity a default of 64; `end_time`
is `startTime + duration` per the MIDI-writer contract of §6. -/
structure Note where
  pitch : ℤ
  start_time : ℚ
  duration : ℚ
  velocity : ℤ
  staff_position : ℤ
  accidental : Bool
  tie : Bool
  dot : Bool
  deriving Repr, DecidableEq

/-- `Note.end_time` property: `start_time + duration`. -/
def Note.end_time (n : Note) : ℚ := n.start_time + n.duration

/-- Modelled from the spec: the `Note(...)` constructor with every
keyword argument given explicitly (used by
`ClefConverter.convert_alto_to_treble` / `convert_treble_to_alto`,
which pass everything except `staff_position`). -/
def mkNoteFull (pitch : ℤ) (start_time duration : ℚ) (velocity : ℤ)
    (staff_position : ℤ) (accidental tie dot : Bool) : Note :=
  ⟨pitch, start_time, duration, velocity, staff_position, accidental, tie, dot⟩

/-- Modelled from the spec: the `Note(...)` constructor call of
`MIDIConverter.calculate_timing` / `quantize_timing`, which passes
pitch, start_time, duration, velocity, staff_position and accidental
and leaves `tie` and `dot` at their defaults (`false`). -/
def mkTimingNote (pitch : ℤ) (start_time duration : ℚ) (velocity : ℤ)
    (staff_position : ℤ) (accidental : Bool) : Note :=
  ⟨pitch, start_time, duration, velocity, staff_position, accidental, false, false⟩

/-- Modelled from the spec: the `Note(...)` constructor call of
`OMREngine.detect_notes_basic`, which passes pitch, start_time,
duration and staff_position and leaves velocity, accidental, tie and
dot at their defaults. -/
def mkDetectedNote (pitch : ℤ) (start_time duration : ℚ)
    (staff_position : ℤ) : Note :=
  ⟨pitch, start_time, duration, 64, staff_position, false, false, false⟩

/-! ## ClefConverter (`src/core/clef_converter.py`) -/

/-- `ClefConverter.ALTO_TO_TREBLE_OFFSET = -6`. -/
def ALTO_TO_TREBLE_OFFSET : ℤ := -6

/-- The `'alto_to_treble'` literal dict of `CLEF_POSITION_MAP`
(lines 23–52), in source order. -/
def altoToTrebleTable : List (ℤ × ℤ) :=
  [(-10, -16), (-9, -15), (-8, -14), (-7, -13), (-6, -12), (-5, -11),
   (-4, -10), (-3, -9), (-2, -8), (-1, -7), (0, -6), (1, -5),
   (2, -4), (3, -3), (4, -2), (5, -1), (6, 0), (7, 1),
   (8, 2), (9, 3), (10, 4), (11, 5), (12, 6), (13, 7),
   (14, 8), (15, 9), (16, 10)]

/-- The literal dict reversed by the `'treble_to_alto'` dict
comprehension (lines 55–61); its pairs repeat the forward table. -/
def trebleToAltoSource : List (ℤ × ℤ) :=
  [(-10, -16), (-9, -15), (-8, -14), (-7, -13), (-6, -12), (-5, -11),
   (-4, -10), (-3, -9), (-2, -8), (-1, -7), (0, -6), (1, -5),
   (2, -4), (3, -3), (4, -2), (5, -1), (6, 0), (7, 1),
   (8, 2), (9, 3), (10, 4), (11, 5), (12, 6), (13, 7),
   (14, 8), (15, 9), (16, 10)]

/-- `{v: k for k, v in {...}.items()}`: the mechanically reversed
table. -/
def trebleToAltoTable : List (ℤ × ℤ) :=
  trebleToAltoSource.map (fun p => (p.2, p.1))

/-- `CLEF_POSITION_MAP`, keyed by the conversion key string. -/
def CLEF_POSITION_MAP : List (String × List (ℤ × ℤ)) :=
  [("alto_to_treble", altoToTrebleTable),
   ("treble_to_alto", trebleToAltoTable)]

/-- `ClefConverter._convert_staff_position` (lines 207–234): table
lookup, then the constant-offset fallback, defaulting to the original
position for unsupported clef pairs. -/
def convertStaffPosition (position : ℤ) (fromClef toClef : String) : ℤ :=
  let conversionKey := fromClef ++ "_to_" ++ toClef
  match CLEF_POSITION_MAP.lookup conversionKey with
  | some positionMap =>
    match positionMap.lookup position with
    | some v => v
    | none =>
      if fromClef = "alto" ∧ toClef = "treble" then
        position + ALTO_TO_TREBLE_OFFSET
      else if fromClef = "treble" ∧ toClef = "alto" then
        position - ALTO_TO_TREBLE_OFFSET
      else
        position
  | none => position

/-- `ClefConverter.convert_alto_to_treble` (lines 129–166): each note
is rebuilt with every field copied, then its staff position is
replaced. -/
def convertAltoToTreble (notes : List Note) : List Note :=
  notes.map fun note =>
    let converted := mkNoteFull note.pitch note.start_time note.duration
      note.velocity 0 note.accidental note.tie note.dot
    { converted with
        staff_position := convertStaffPosition note.staff_position "alto" "treble" }

/-- `ClefConverter.convert_treble_to_alto` (lines 168–205). -/
def convertTrebleToAlto (notes : List Note) : List Note :=
  notes.map fun note =>
    let converted := mkNoteFull note.pitch note.start_time note.duration
      note.velocity 0 note.accidental note.tie note.dot
    { converted with
        staff_position := convertStaffPosition note.staff_position "treble" "alto" }

/-! ## MIDIConverter timing (`src/core/midi_converter.py`) -/

/-- Python `sorted(notes, key=lambda n: n.start_time)`: a stable
ascending sort by start time (insertion sort is stable, and a stable
sort under a total preorder is unique, so this matches CPython's
Timsort). -/
def sortByStart (notes : List Note) : List Note :=
  notes.insertionSort (fun a b => a.start_time ≤ b.start_time)

/-- The loop body of `MIDIConverter.calculate_timing` (lines 164–193)
for one note: `prev` is the last note of `adjusted_notes`, `nxt` is
`sorted_notes[i + 1]` when it exists.  The note is rebuilt by a
`Note(...)` call that drops `tie`/`dot`, its start is pushed to the
previous adjusted note's end on overlap, and its duration is shrunk
against the next original note's start (or set to the 0.1s minimum
when the remaining gap is not positive). -/
def adjustStep (prev : Option Note) (note : Note) (nxt : Option Note) : Note :=
  let adjusted0 := mkTimingNote note.pitch note.start_time note.duration
    note.velocity note.staff_position note.accidental
  let adjusted1 :=
    match prev with
    | some prevNote =>
      if adjusted0.start_time < prevNote.end_time then
        { adjusted0 with start_time := prevNote.end_time }
      else adjusted0
    | none => adjusted0
  match nxt with
  | some nextNote =>
    if adjusted1.end_time > nextNote.start_time then
      let maxDuration := nextNote.start_time - adjusted1.start_time
      if maxDuration > 0 then
        { adjusted1 with duration := min adjusted1.duration maxDuration }
      else
        { adjusted1 with duration := 1/10 }
    else adjusted1
  | none => adjusted1

/-- The adjustment loop of `calculate_timing` over the sorted list:
each adjusted note is consed on and becomes the `prev` of the next
iteration. -/
def adjustNotes (prev : Option Note) : List Note → List Note
  | [] => []
  | note :: rest =>
    let adjusted2 := adjustStep prev note rest.head?
    adjusted2 :: adjustNotes (some adjusted2) rest

/-- `MIDIConverter.calculate_timing` (lines 147–196): early return on
an empty list, else sort by start time and run the adjustment loop. -/
def calculate_timing (notes : List Note) : List Note :=
  if notes.isEmpty then notes
  else adjustNotes none (sortByStart notes)

/-- Python 3 `round` on an exact rational value: round to the nearest
integer, ties to the even integer (banker's rounding). -/
def pyRound (q : ℚ) : ℤ :=
  let f := ⌊q⌋
  let r := q - f
  if r < 1/2 then f
  else if 1/2 < r then f + 1
  else if f % 2 = 0 then f else f + 1

/-- `MIDIConverter.quantize_timing` (lines 198–230): snap start time
and duration to multiples of `resolution` with Python `round`, clamp
the duration from below by `resolution`, and rebuild each note with a
`Note(...)` call that drops `tie`/`dot`.  The Python default for
`resolution` is `0.125`. -/
def quantize_timing (notes : List Note) (resolution : ℚ) : List Note :=
  notes.map fun note =>
    let quantizedStart := (pyRound (note.start_time / resolution) : ℚ) * resolution
    let quantizedDuration :=
      max resolution ((pyRound (note.duration / resolution) : ℚ) * resolution)
    mkTimingNote note.pitch quantizedStart quantizedDuration
      note.velocity note.staff_position note.accidental

/-! ## OMREngine heuristic detection (`src/core/omr_engine.py`) -/

/-- Python `int(...)` applied to an exact rational: truncation toward
zero (Lean's `Int` division also truncates toward zero, and the
denominator is positive). -/
def pyTrunc (q : ℚ) : ℤ := q.num / (q.den : ℤ)

/-- `OMREngine._staff_position_to_pitch` (lines 259–284): a
clef-specific base pitch plus the position, clamped to `[21, 108]`;
unknown clefs default to 60. -/
def staffPositionToPitch (position : ℤ) (clef : String) : ℤ :=
  if clef = "alto" then max 21 (min 108 (60 + position))
  else if clef = "treble" then max 21 (min 108 (67 + position))
  else if clef = "bass" then max 21 (min 108 (53 + position))
  else 60

/-- `OMREngine._calculate_staff_position` (lines 229–257): returns 0
when fewer than 5 staff lines are available (`not staff_lines or
len(staff_lines) < 5`); otherwise picks the first closest line,
offsets by ±0.5 when more than 5px away from it, and truncates the
doubled position to an int. -/
def calculateStaffPosition (y : ℤ) (staffLines : List ℤ) : ℤ :=
  if staffLines.length < 5 then 0
  else
    let distances := staffLines.map (fun line => |y - line|)
    let closestLineIdx := distances.indexOf (distances.min?.getD 0)
    let staffPosition : ℚ := (closestLineIdx : ℚ) - 2
    let staffPosition :=
      if distances.getD closestLineIdx 0 > 5 then
        if y < staffLines.getD closestLineIdx 0 then staffPosition + 1/2
        else staffPosition - 1/2
      else staffPosition
    pyTrunc (staffPosition * 2)

/-- A connected-component contour as reported by
`cv2.boundingRect`/`cv2.contourArea` (library primitives): bounding
box `(x, y, w, h)` and pixel area. -/
structure Component where
  x : ℕ
  y : ℕ
  w : ℕ
  h : ℕ
  area : ℚ
  deriving Repr, DecidableEq

/-- `OMREngine.detect_notes_basic` (lines 170–227), with the OpenCV
contour extraction abstracted as the input component list and
`image.shape[1]` as `imageWidth`: keep components with area in
(50, 1000), compute the staff position of the vertical center, derive
the pitch with the alto clef, estimate the start time from the
horizontal position over an assumed 4-second piece, and emit a note
with the fixed placeholder duration 0.5.  A zero image width raises
`ZeroDivisionError` in Python, which the enclosing handler turns into
an empty list. -/
def detectNotesBasic (components : List Component) (staffLines : List ℤ)
    (imageWidth : ℕ) : List Note :=
  if imageWidth = 0 then []
  else
    components.filterMap fun c =>
      if 50 < c.area ∧ c.area < 1000 then
        let centerY : ℤ := ((c.y + c.h / 2 : ℕ) : ℤ)
        let staffPosition := calculateStaffPosition centerY staffLines
        let pitch := staffPositionToPitch staffPosition "alto"
        let startTime : ℚ := (c.x : ℚ) / (imageWidth : ℚ) * 4
        some (mkDetectedNote pitch startTime (1/2) staffPosition)
      else none

/-! ## ImagePreprocessor (`src/core/image_preprocessor.py`)

The OpenCV / PIL primitives each sub-step calls are abstracted as an
oracle of partial functions on abstract images (`ℕ`); `none` models the
primitive raising an exception. -/

/-- Library primitives used by the preprocessor sub-steps.  Each field
is the composite effect of one sub-step's library calls, except for
`binarize`, whose four successive OpenCV calls are kept separate. -/
structure CvOracle where
  resizeStep : ℕ → ℕ → Option ℕ
  enhanceStep : ℕ → Option ℕ
  rotateStep : ℕ → Option ℕ
  cropStep : ℕ → Option ℕ
  cvtGray : ℕ → Option ℕ
  adaptiveThreshold : ℕ → Option ℕ
  morphClose2 : ℕ → Option ℕ
  morphOpen2 : ℕ → Option ℕ

/-- `ImagePreprocessor.resize_image` (lines 274–307): best-effort — an
exception inside the body returns the input image unchanged. -/
def resize_image (o : CvOracle) (targetWidth : ℕ) (img : ℕ) : ℕ :=
  (o.resizeStep targetWidth img).getD img

/-- `ImagePreprocessor.enhance_image` (lines 94–127): best-effort. -/
def enhance_image (o : CvOracle) (img : ℕ) : ℕ :=
  (o.enhanceStep img).getD img

/-- `ImagePreprocessor.auto_rotate` (lines 129–187): best-effort. -/
def auto_rotate (o : CvOracle) (img : ℕ) : ℕ :=
  (o.rotateStep img).getD img

/-- `ImagePreprocessor.crop_staff_area` (lines 224–272): best-effort. -/
def crop_staff_area (o : CvOracle) (img : ℕ) : ℕ :=
  (o.cropStep img).getD img

/-- `ImagePreprocessor.binarize` (lines 189–222): grayscale, adaptive
threshold, one morphological close, one morphological open (2×2
kernel).  Its handler logs and RE-RAISES (`raise`), so a failure in any
library call propagates (`none`) instead of returning the input. -/
def binarize (o : CvOracle) (img : ℕ) : Option ℕ :=
  (o.cvtGray img).bind fun gray =>
    (o.adaptiveThreshold gray).bind fun thresholded =>
      (o.morphClose2 thresholded).bind fun closed =>
        o.morphOpen2 closed

/-- `ImagePreprocessor.preprocess` (lines 309–345), after validation
and loading: resize (2048px target in high quality, 1024px otherwise),
enhance, auto-rotate, crop.  The source applies no binarization
step. -/
def preprocess (o : CvOracle) (highQuality : Bool) (img : ℕ) : ℕ :=
  let resized := resize_image o (if highQuality then 2048 else 1024) img
  let enhanced := enhance_image o resized
  let rotated := auto_rotate o enhanced
  crop_staff_area o rotated

/-- The preprocessing pipeline as the spec's words describe it
(§4.1 / claim C8): the same steps with a best-effort binarization
between auto-rotation and cropping.  Stated only for comparison with
`preprocess`. -/
def preprocessSpecC8 (o : CvOracle) (highQuality : Bool) (img : ℕ) : ℕ :=
  let resized := resize_image o (if highQuality then 2048 else 1024) img
  let enhanced := enhance_image o resized
  let rotated := auto_rotate o enhanced
  let binarized := (binarize o rotated).getD rotated
  crop_staff_area o binarized

/-! ## ConversionProgress (`src/core/converter.py`)

Wall-clock times are irrelevant to the claims; `started` models
`start_time is not None`.  Operation label strings are omitted.
Callbacks are identified by numbers; a `Delivery` records one
synchronous callback invocation and the step data it received. -/

/-- One progress notification: which callback was invoked, with which
`step`/`total` payload. -/
structure Delivery where
  callback : ℕ
  step : ℕ
  total : ℕ
  deriving Repr, DecidableEq

/-- The `ConversionProgress` state (lines 37–81). -/
structure ConversionProgress where
  total_steps : ℕ
  current_step : ℕ
  callbacks : List ℕ
  started : Bool
  deriving Repr, DecidableEq

/-- `ConversionProgress.__init__`. -/
def ConversionProgress.initial : ConversionProgress := ⟨0, 0, [], false⟩

/-- `ConversionProgress.set_total_steps` (lines 47–51): resets
`total_steps`, `current_step` and `start_time`; the callback list is
untouched. -/
def setTotalSteps (p : ConversionProgress) (total : ℕ) : ConversionProgress :=
  { p with total_steps := total, current_step := 0, started := true }

/-- `ConversionProgress.add_callback` (lines 59–61): appends. -/
def addCallback (p : ConversionProgress) (c : ℕ) : ConversionProgress :=
  { p with callbacks := p.callbacks ++ [c] }

/-- `ConversionProgress._notify_callbacks` (lines 63–81): every
registered callback is invoked with the current step data. -/
def notifyCallbacks (p : ConversionProgress) : List Delivery :=
  p.callbacks.map fun c => ⟨c, p.current_step, p.total_steps⟩

/-- `ConversionProgress.next_step` (lines 53–57). -/
def nextStep (p : ConversionProgress) : ConversionProgress × List Delivery :=
  let p' := { p with current_step := p.current_step + 1 }
  (p', notifyCallbacks p')

/-- `n` successive `next_step` calls, collecting the deliveries. -/
def runSteps : ConversionProgress → ℕ → ConversionProgress × List Delivery
  | p, 0 => (p, [])
  | p, n + 1 =>
    let (p', d) := nextStep p
    let (p'', ds) := runSteps p' n
    (p'', d ++ ds)

/-- The progress behaviour of `ClefConverter.convert_single`
(lines 123–259) on a successful run: optionally `add_callback` the
caller's callback, `set_total_steps(6)`, then six `next_step` calls.
Returns the final progress state and the deliveries of this run. -/
def convertSingleProgress (p0 : ConversionProgress) (cb : Option ℕ) :
    ConversionProgress × List Delivery :=
  let p1 := match cb with
    | some c => addCallback p0 c
    | none => p0
  runSteps (setTotalSteps p1 6) 6

/-! ## Spec-side comparison definitions and concrete fixtures -/

/-- The per-note overlap-resolution step exactly as the spec's words
state it, over (startTime, duration) pairs: if the current start is
before the previous adjusted note's end, push the start to that end;
if the (possibly pushed) end would exceed the next original note's
start, shrink the duration to the gap, or to the minimum 0.1s when the
gap is zero or negative.  Stated only for comparison with
`adjustStep`. -/
def resolveSpecPair (prev : Option (ℚ × ℚ)) (sd : ℚ × ℚ)
    (nxt : Option (ℚ × ℚ)) : ℚ × ℚ :=
  let s1 :=
    match prev with
    | some q => if sd.1 < q.1 + q.2 then q.1 + q.2 else sd.1
    | none => sd.1
  let d1 :=
    match nxt with
    | some q => if s1 + sd.2 > q.1 then (if q.1 - s1 > 0 then q.1 - s1 else 1/10) else sd.2
    | none => sd.2
  (s1, d1)

/-- The spec's left-to-right walk over (startTime, duration) pairs. -/
def resolveOverlapsSpecStep (prev : Option (ℚ × ℚ)) :
    List (ℚ × ℚ) → List (ℚ × ℚ)
  | [] => []
  | sd :: rest =>
    let p := resolveSpecPair prev sd rest.head?
    p :: resolveOverlapsSpecStep (some p) rest

/-- Round-half-away-from-zero, the rounding mode the spec asserts for
quantization.  Stated only for comparison with `pyRound` (Python's
`round`, which rounds ties to even). -/
def roundHalfAwayFromZero (q : ℚ) : ℤ :=
  if 0 ≤ q then ⌊q + 1/2⌋ else -⌊-q + 1/2⌋

/-- A note carrying a tie and a dot. -/
def tieDotNote : Note := ⟨60, 0, 1, 64, 4, false, true, true⟩

/-- An oracle whose binarization chain changes the image (adds 1 at
the grayscale call) while every other primitive is the identity. -/
def binarizeMarkOracle : CvOracle :=
  ⟨fun _ img => some img, fun img => some img, fun img => some img,
   fun img => some img, fun img => some (img + 1), fun img => some img,
   fun img => some img, fun img => some img⟩

/-- An oracle every one of whose primitives fails. -/
def allFailOracle : CvOracle :=
  ⟨fun _ _ => none, fun _ => none, fun _ => none, fun _ => none,
   fun _ => none, fun _ => none, fun _ => none, fun _ => none⟩


/-! ## Helper lemmas -/

/-- A lookup misses an association list none of whose keys match. -/
theorem lookupNoneOfKeysNe {p : ℤ} : ∀ {l : List (ℤ × ℤ)},
    (∀ kv ∈ l, kv.1 ≠ p) → l.lookup p = none
  | [], _ => rfl
  | (k, v) :: rest, h => by
    simp only [List.lookup]
    rw [show (p == k) = false from
      beq_eq_false_iff_ne.mpr fun he => h (k, v) (List.mem_cons_self _ _) he.symm]
    exact lookupNoneOfKeysNe fun kv hkv => h kv (List.mem_cons_of_mem _ hkv)

/-- Every key of the forward table lies in `[-10, 16]`. -/
theorem altoTableKeys : ∀ kv ∈ altoToTrebleTable, -10 ≤ kv.1 ∧ kv.1 ≤ 16 := by
  decide

/-- Every key of the reversed table lies in `[-16, 10]`. -/
theorem trebleTableKeys : ∀ kv ∈ trebleToAltoTable, -16 ≤ kv.1 ∧ kv.1 ≤ 10 := by
  decide

/-- `_convert_staff_position` for the alto→treble direction reduces to
the table lookup with the constant-offset fallback. -/
theorem convertStaffPosition_alto_treble (p : ℤ) :
    convertStaffPosition p "alto" "treble" =
      match altoToTrebleTable.lookup p with
      | some v => v
      | none => p + ALTO_TO_TREBLE_OFFSET := by
  cases h : altoToTrebleTable.lookup p <;>
    simp +decide [convertStaffPosition, CLEF_POSITION_MAP, h]

/-- `_convert_staff_position` for the treble→alto direction reduces to
the reversed-table lookup with the constant-offset fallback. -/
theorem convertStaffPosition_treble_alto (p : ℤ) :
    convertStaffPosition p "treble" "alto" =
      match trebleToAltoTable.lookup p with
      | some v => v
      | none => p - ALTO_TO_TREBLE_OFFSET := by
  have hlookup : CLEF_POSITION_MAP.lookup "treble_to_alto"
      = some trebleToAltoTable := rfl
  cases h : trebleToAltoTable.lookup p <;>
    simp +decide [convertStaffPosition, hlookup, h]

/-- Round trip of one staff position through both table directions. -/
theorem staffPositionRoundtrip (p : ℤ) (h1 : -10 ≤ p) (h2 : p ≤ 16) :
    convertStaffPosition (convertStaffPosition p "alto" "treble")
      "treble" "alto" = p := by
  interval_cases p <;> decide

/-! ## C1 -/

/-- C1: for every list of notes whose staff positions are alto
positions in the table range `[-10, 16]`, converting alto→treble and
then treble→alto restores every note's staff position exactly. -/
theorem altoTrebleRoundtripRestoresPositions (notes : List Note)
    (h : ∀ n ∈ notes, -10 ≤ n.staff_position ∧ n.staff_position ≤ 16) :
    (convertTrebleToAlto (convertAltoToTreble notes)).map Note.staff_position
      = notes.map Note.staff_position := by
  induction notes with
  | nil => rfl
  | cons n ns ih =>
    obtain ⟨h1, h2⟩ := h n (List.mem_cons_self n ns)
    have hrest := ih fun m hm => h m (List.mem_cons_of_mem _ hm)
    simp only [convertAltoToTreble, convertTrebleToAlto, mkNoteFull,
      List.map_cons, List.cons.injEq] at hrest ⊢
    exact ⟨staffPositionRoundtrip n.staff_position h1 h2, hrest⟩

/-- Witness for C1 at a concrete one-note list with alto position 4. -/
theorem altoTrebleRoundtripRestoresPositions_witness :
    (convertTrebleToAlto (convertAltoToTreble [mkDetectedNote 60 0 1 4])).map
        Note.staff_position
      = [mkDetectedNote 60 0 1 4].map Note.staff_position :=
  altoTrebleRoundtripRestoresPositions [mkDetectedNote 60 0 1 4] (by decide)

/-! ## C2 -/

/-- C2: for every input note list and both supported directions, each
output note keeps exactly the input note's pitch, start time, duration,
velocity, accidental, tie and dot; only the staff position may
differ. -/
theorem conversionPreservesAllButStaffPosition (notes : List Note) :
    (convertAltoToTreble notes).map Note.pitch = notes.map Note.pitch ∧
    (convertAltoToTreble notes).map Note.start_time = notes.map Note.start_time ∧
    (convertAltoToTreble notes).map Note.duration = notes.map Note.duration ∧
    (convertAltoToTreble notes).map Note.velocity = notes.map Note.velocity ∧
    (convertAltoToTreble notes).map Note.accidental = notes.map Note.accidental ∧
    (convertAltoToTreble notes).map Note.tie = notes.map Note.tie ∧
    (convertAltoToTreble notes).map Note.dot = notes.map Note.dot ∧
    (convertTrebleToAlto notes).map Note.pitch = notes.map Note.pitch ∧
    (convertTrebleToAlto notes).map Note.start_time = notes.map Note.start_time ∧
    (convertTrebleToAlto notes).map Note.duration = notes.map Note.duration ∧
    (convertTrebleToAlto notes).map Note.velocity = notes.map Note.velocity ∧
    (convertTrebleToAlto notes).map Note.accidental = notes.map Note.accidental ∧
    (convertTrebleToAlto notes).map Note.tie = notes.map Note.tie ∧
    (convertTrebleToAlto notes).map Note.dot = notes.map Note.dot := by
  refine ⟨?_, ?_, ?_, ?_, ?_, ?_, ?_, ?_, ?_, ?_, ?_, ?_, ?_, ?_⟩ <;>
    simp [convertAltoToTreble, convertTrebleToAlto, mkNoteFull, List.map_map,
      Function.comp]

/-! ## C3 -/

/-- C3: the alto→treble mapping satisfies the table spot checks
(4 ↦ -2, 8 ↦ 2, 0 ↦ -6), and outside the table range it applies the
constant offset: alto→treble adds -6 (so 20 ↦ 14), treble→alto
adds +6. -/
theorem tableSpotChecksAndOffsetFallback (p q : ℤ)
    (hp : p < -10 ∨ 16 < p) (hq : q < -16 ∨ 10 < q) :
    convertStaffPosition 4 "alto" "treble" = -2 ∧
    convertStaffPosition 8 "alto" "treble" = 2 ∧
    convertStaffPosition 0 "alto" "treble" = -6 ∧
    convertStaffPosition 20 "alto" "treble" = 14 ∧
    convertStaffPosition p "alto" "treble" = p + -6 ∧
    convertStaffPosition q "treble" "alto" = q + 6 := by
  have hpnone : altoToTrebleTable.lookup p = none :=
    lookupNoneOfKeysNe fun kv hkv => by have := altoTableKeys kv hkv; omega
  have hqnone : trebleToAltoTable.lookup q = none :=
    lookupNoneOfKeysNe fun kv hkv => by have := trebleTableKeys kv hkv; omega
  refine ⟨by decide, by decide, by decide, by decide, ?_, ?_⟩
  · rw [convertStaffPosition_alto_treble, hpnone]
    rfl
  · rw [convertStaffPosition_treble_alto, hqnone]
    show q - ALTO_TO_TREBLE_OFFSET = q + 6
    simp only [ALTO_TO_TREBLE_OFFSET]
    omega

/-- Witness for C3 at the out-of-table positions 20 (alto side) and
20 (treble side). -/
theorem tableSpotChecksAndOffsetFallback_witness :
    convertStaffPosition 4 "alto" "treble" = -2 ∧
    convertStaffPosition 8 "alto" "treble" = 2 ∧
    convertStaffPosition 0 "alto" "treble" = -6 ∧
    convertStaffPosition 20 "alto" "treble" = 14 ∧
    convertStaffPosition 20 "alto" "treble" = 20 + -6 ∧
    convertStaffPosition 20 "treble" "alto" = 20 + 6 :=
  tableSpotChecksAndOffsetFallback 20 20 (by decide) (by decide)

/-! ## C7 -/

/-- C7 counterexample: at treble position +2 the detector yields pitch
69, not the claimed anchor pitch 67, and at bass position -2 it yields
51, not the claimed 53 — the code adds the position to the base pitch
directly, anchoring every clef at position 0. -/
theorem heuristicPitchTrebleAnchor_counterexample :
    staffPositionToPitch 2 "treble" = 69 ∧
    staffPositionToPitch 2 "treble" ≠ 67 ∧
    staffPositionToPitch (-2) "bass" = 51 ∧
    staffPositionToPitch (-2) "bass" ≠ 53 := by decide

/-- C7 amended: for every doubled staff position `p` the heuristic
detector converts `p` at a 1:1 semitone-per-position ratio anchored at
position 0 for every supported clef — alto: pitch 60, treble: pitch 67,
bass: pitch 53, all at position 0 — and clamps the result to
`[21, 108]`. -/
theorem heuristicPitchAnchoredAtZero (p : ℤ) :
    staffPositionToPitch p "alto" = max 21 (min 108 (60 + p)) ∧
    staffPositionToPitch p "treble" = max 21 (min 108 (67 + p)) ∧
    staffPositionToPitch p "bass" = max 21 (min 108 (53 + p)) ∧
    21 ≤ staffPositionToPitch p "alto" ∧ staffPositionToPitch p "alto" ≤ 108 ∧
    21 ≤ staffPositionToPitch p "treble" ∧ staffPositionToPitch p "treble" ≤ 108 ∧
    21 ≤ staffPositionToPitch p "bass" ∧ staffPositionToPitch p "bass" ≤ 108 := by
  simp +decide only [staffPositionToPitch]
  exact ⟨rfl, rfl, rfl, le_max_left _ _, max_le (by norm_num) (min_le_left _ _),
    le_max_left _ _, max_le (by norm_num) (min_le_left _ _),
    le_max_left _ _, max_le (by norm_num) (min_le_left _ _)⟩

/-! ## C10 -/

/-- With fewer than five staff lines the position computation
short-circuits to 0. -/
theorem calculateStaffPosition_short (y : ℤ) (staffLines : List ℤ)
    (h : staffLines.length < 5) : calculateStaffPosition y staffLines = 0 := by
  unfold calculateStaffPosition
  rw [if_pos h]

/-- C10: whenever the staff-line list handed to heuristic detection has
fewer than 5 entries (including the empty list), every emitted note
candidate has staff position 0 and pitch 60 (the alto base pitch) —
the detector silently degrades to constant output. -/
theorem fewStaffLinesDegradeToConstant (components : List Component)
    (staffLines : List ℤ) (imageWidth : ℕ) (h : staffLines.length < 5) :
    ∀ n ∈ detectNotesBasic components staffLines imageWidth,
      n.staff_position = 0 ∧ n.pitch = 60 := by
  intro n hn
  unfold detectNotesBasic at hn
  split at hn
  · simp at hn
  · rw [List.mem_filterMap] at hn
    obtain ⟨c, _, hsome⟩ := hn
    split at hsome
    · simp only [] at hsome
      rw [calculateStaffPosition_short _ _ h] at hsome
      have : staffPositionToPitch 0 "alto" = 60 := by decide
      rw [this] at hsome
      obtain rfl := Option.some.inj hsome
      exact ⟨rfl, rfl⟩
    · exact absurd hsome (by simp)

/-- Witness for C10: an empty staff-line list and one in-band
component. -/
theorem fewStaffLinesDegradeToConstant_witness :
    ([] : List ℤ).length < 5 ∧
    ∀ n ∈ detectNotesBasic [⟨10, 20, 6, 8, 100⟩] ([] : List ℤ) 100,
      n.staff_position = 0 ∧ n.pitch = 60 :=
  ⟨by decide, fewStaffLinesDegradeToConstant _ _ _ (by decide)⟩

/-! ## C4 -/

/-- One source-loop step agrees with the spec's description on the
(startTime, duration) projection. -/
theorem adjustStep_matches (prev nxt : Option Note) (note : Note) :
    ((adjustStep prev note nxt).start_time, (adjustStep prev note nxt).duration)
      = resolveSpecPair (prev.map fun n => (n.start_time, n.duration))
          (note.start_time, note.duration)
          (nxt.map fun n => (n.start_time, n.duration)) := by
  cases prev <;> cases nxt <;>
    simp only [adjustStep, resolveSpecPair, Option.map, mkTimingNote,
      Note.end_time] <;>
    split_ifs <;>
    first
    | rfl
    | (simp only [Prod.mk.injEq]
       refine ⟨by trivial, min_eq_right ?_⟩
       try dsimp only at *
       linarith)

/-- The source loop agrees with the spec's walk on the
(startTime, duration) projection, for any previous adjusted note. -/
theorem adjustNotes_matches_spec (l : List Note) : ∀ prev : Option Note,
    (adjustNotes prev l).map (fun n => (n.start_time, n.duration))
      = resolveOverlapsSpecStep (prev.map fun n => (n.start_time, n.duration))
          (l.map fun n => (n.start_time, n.duration)) := by
  induction l with
  | nil => intro prev; rfl
  | cons note rest ih =>
    intro prev
    have htail := ih (some (adjustStep prev note rest.head?))
    simp only [Option.map] at htail
    simp only [adjustNotes, resolveOverlapsSpecStep, List.map_cons,
      List.head?_map]
    rw [← adjustStep_matches prev rest.head? note, htail]

/-- C4: `calculate_timing` first sorts the notes by start time and then
applies exactly the per-note push/shrink walk the claim describes, and
on the inputs A(start 0, duration 1), B(start 0.5, duration 1) it
produces A.end ≤ B.start (here by shrinking A's duration to 0.5). -/
theorem resolveOverlapsSortsThenAdjusts (notes : List Note) :
    (calculate_timing notes).map (fun n => (n.start_time, n.duration))
      = resolveOverlapsSpecStep none
          ((sortByStart notes).map fun n => (n.start_time, n.duration)) ∧
    calculate_timing [mkDetectedNote 60 0 1 0, mkDetectedNote 62 (1/2) 1 2]
      = [mkTimingNote 60 0 (1/2) 64 0 false, mkTimingNote 62 (1/2) 1 64 2 false] ∧
    (mkTimingNote 60 0 (1/2) 64 0 false).end_time
      ≤ (mkTimingNote 62 (1/2) 1 64 2 false).start_time := by
  refine ⟨?_, ?_, ?_⟩
  · cases hn : notes with
    | nil => rfl
    | cons a l =>
      have : ¬(a :: l).isEmpty := by simp
      simp only [calculate_timing, hn, this, if_false, Bool.false_eq_true]
      exact adjustNotes_matches_spec _ none
  · norm_num [calculate_timing, sortByStart, List.insertionSort,
      List.orderedInsert, adjustNotes, adjustStep, mkTimingNote, mkDetectedNote,
      Note.end_time, min_def]
  · norm_num [mkTimingNote, Note.end_time]

/-! ## C5 -/

/-- `pyRound` lands within half a unit of its argument. -/
theorem pyRound_nearest (q : ℚ) : |(pyRound q : ℚ) - q| ≤ 1/2 := by
  have h1 : (⌊q⌋ : ℚ) ≤ q := Int.floor_le q
  have h2 : q < ⌊q⌋ + 1 := Int.lt_floor_add_one q
  simp only [pyRound]
  split_ifs with ha hb hc <;> rw [abs_le] <;> push_cast <;> constructor <;>
    linarith

/-- The snapped value lands within half a resolution of the input. -/
theorem pyRound_mul_nearest (s res : ℚ) (hres : 0 < res) :
    |(pyRound (s / res) : ℚ) * res - s| ≤ res / 2 := by
  have h := pyRound_nearest (s / res)
  have key : (pyRound (s / res) : ℚ) * res - s
      = ((pyRound (s / res) : ℚ) - s / res) * res := by
    field_simp
  rw [key, abs_mul, abs_of_pos hres]
  calc |(pyRound (s / res) : ℚ) - s / res| * res
      ≤ (1/2) * res := mul_le_mul_of_nonneg_right h (le_of_lt hres)
    _ = res / 2 := by ring

/-- C5 counterexample: a note with startTime 0.0625 at resolution
0.125 quantizes to 0.0 (Python `round` sends the tie 0.5 to the even
integer 0), while round-half-away-from-zero would send it to 0.125 —
so quantization does not use round-half-away-from-zero. -/
theorem quantizeRounding_counterexample :
    (quantize_timing [mkDetectedNote 60 (1/16) 1 0] (1/8)).map
        Note.start_time = [0] ∧
    ((roundHalfAwayFromZero ((1/16 : ℚ) / (1/8)) : ℚ) * (1/8) : ℚ) = 1/8 ∧
    (0 : ℚ) ≠ 1/8 := by
  refine ⟨?_, ?_, by norm_num⟩
  · have h : pyRound (1/2) = 0 := by norm_num [pyRound, Int.fract]
    simp [quantize_timing, mkTimingNote, mkDetectedNote]
    norm_num [h]
  · norm_num [roundHalfAwayFromZero]

/-- C5 amended: `quantize_timing` snaps every start time to the
multiple of the resolution chosen by Python's `round`
(round-half-to-even), which is a nearest multiple (within half a
resolution); it snaps the duration the same way and then clamps it to
a minimum of one resolution; and the spot check 0.31 ↦ 0.25 holds at
resolution 0.125. -/
theorem quantizeSnapsWithBankersRounding (notes : List Note)
    (resolution : ℚ) (hres : 0 < resolution) :
    (quantize_timing notes resolution).map Note.start_time
      = notes.map (fun n => (pyRound (n.start_time / resolution) : ℚ) * resolution) ∧
    (quantize_timing notes resolution).map Note.duration
      = notes.map (fun n =>
          max resolution ((pyRound (n.duration / resolution) : ℚ) * resolution)) ∧
    (∀ n ∈ notes,
      |(pyRound (n.start_time / resolution) : ℚ) * resolution - n.start_time|
        ≤ resolution / 2) ∧
    (∀ n' ∈ quantize_timing notes resolution, resolution ≤ n'.duration) ∧
    (quantize_timing [mkDetectedNote 60 (31/100) 1 0] (1/8)).map
        Note.start_time = [1/4] := by
  refine ⟨?_, ?_, ?_, ?_, ?_⟩
  · simp [quantize_timing, mkTimingNote, List.map_map, Function.comp]
  · simp [quantize_timing, mkTimingNote, List.map_map, Function.comp]
  · intro n _
    exact pyRound_mul_nearest n.start_time resolution hres
  · intro n' hn'
    simp only [quantize_timing, List.mem_map] at hn'
    obtain ⟨note, _, rfl⟩ := hn'
    exact le_max_left _ _
  · have h : pyRound (62/25) = 2 := by norm_num [pyRound, Int.fract]
    simp [quantize_timing, mkTimingNote, mkDetectedNote]
    norm_num [h]

/-- Witness for C5 amended at a concrete one-note list and resolution
0.125. -/
theorem quantizeSnapsWithBankersRounding_witness :
    (0 : ℚ) < 1/8 ∧
    ((quantize_timing [mkDetectedNote 60 (31/100) 1 0] (1/8)).map Note.start_time
        = [mkDetectedNote 60 (31/100) 1 0].map
            (fun n => (pyRound (n.start_time / (1/8)) : ℚ) * (1/8)) ∧
      (quantize_timing [mkDetectedNote 60 (31/100) 1 0] (1/8)).map Note.duration
        = [mkDetectedNote 60 (31/100) 1 0].map
            (fun n => max (1/8) ((pyRound (n.duration / (1/8)) : ℚ) * (1/8))) ∧
      (∀ n ∈ [mkDetectedNote 60 (31/100) 1 0],
        |(pyRound (n.start_time / (1/8)) : ℚ) * (1/8) - n.start_time| ≤ (1/8) / 2) ∧
      (∀ n' ∈ quantize_timing [mkDetectedNote 60 (31/100) 1 0] (1/8),
        (1/8 : ℚ) ≤ n'.duration) ∧
      (quantize_timing [mkDetectedNote 60 (31/100) 1 0] (1/8)).map
          Note.start_time = [1/4]) :=
  ⟨by norm_num, quantizeSnapsWithBankersRounding _ _ (by norm_num)⟩

/-! ## C6 -/

/-- C6 counterexample: both timing functions rebuild each note through
a `Note(...)` call that omits `tie` and `dot`, so a tied, dotted input
note comes out with both flags cleared — they are not left
unchanged. -/
theorem timingResetsTieAndDot_counterexample :
    tieDotNote.tie = true ∧ tieDotNote.dot = true ∧
    (calculate_timing [tieDotNote]).map Note.tie = [false] ∧
    (calculate_timing [tieDotNote]).map Note.dot = [false] ∧
    (quantize_timing [tieDotNote] (1/8)).map Note.tie = [false] ∧
    (quantize_timing [tieDotNote] (1/8)).map Note.dot = [false] := by
  refine ⟨rfl, rfl, ?_, ?_, ?_, ?_⟩ <;>
    simp [calculate_timing, quantize_timing, sortByStart, List.insertionSort,
      List.orderedInsert, adjustNotes, adjustStep, mkTimingNote, tieDotNote]

/-- One adjustment step keeps pitch, staff position, velocity and
accidental, and clears tie and dot. -/
theorem adjustStep_frame (prev nxt : Option Note) (note : Note) :
    (adjustStep prev note nxt).pitch = note.pitch ∧
    (adjustStep prev note nxt).staff_position = note.staff_position ∧
    (adjustStep prev note nxt).velocity = note.velocity ∧
    (adjustStep prev note nxt).accidental = note.accidental ∧
    (adjustStep prev note nxt).tie = false ∧
    (adjustStep prev note nxt).dot = false := by
  cases prev <;> cases nxt <;>
    simp only [adjustStep, mkTimingNote] <;> (try split_ifs) <;> simp

/-- The adjustment loop keeps pitch, staff position, velocity and
accidental of the corresponding (sorted) input note, and clears tie
and dot on every output note. -/
theorem adjustNotes_frame (l : List Note) : ∀ prev : Option Note,
    (adjustNotes prev l).map
        (fun n => (n.pitch, n.staff_position, n.velocity, n.accidental))
      = l.map (fun n => (n.pitch, n.staff_position, n.velocity, n.accidental)) ∧
    ∀ n' ∈ adjustNotes prev l, n'.tie = false ∧ n'.dot = false := by
  induction l with
  | nil => intro prev; exact ⟨rfl, by simp [adjustNotes]⟩
  | cons note rest ih =>
    intro prev
    obtain ⟨hq, hf⟩ := ih (some (adjustStep prev note rest.head?))
    obtain ⟨hp, hsp, hv, hacc, ht, hd⟩ := adjustStep_frame prev rest.head? note
    constructor
    · simp only [adjustNotes, List.map_cons, hq, List.cons.injEq,
        Prod.mk.injEq]
      simp [hp, hsp, hv, hacc]
    · intro n' hn'
      simp only [adjustNotes, List.mem_cons] at hn'
      rcases hn' with rfl | hn'
      · exact ⟨ht, hd⟩
      · exact hf n' hn'

/-- C6 amended: the timing normalizers are pure functions of their
input; `quantize_timing` keeps every note's pitch, staff position,
velocity and accidental, `calculate_timing` keeps those of the
corresponding note of the start-time-sorted input, and both reset
`tie` and `dot` to the constructor default `false` instead of
preserving them. -/
theorem timingFrameEffect (notes : List Note) (resolution : ℚ) :
    (quantize_timing notes resolution).map
        (fun n => (n.pitch, n.staff_position, n.velocity, n.accidental))
      = notes.map (fun n => (n.pitch, n.staff_position, n.velocity, n.accidental)) ∧
    (calculate_timing notes).map
        (fun n => (n.pitch, n.staff_position, n.velocity, n.accidental))
      = (sortByStart notes).map
          (fun n => (n.pitch, n.staff_position, n.velocity, n.accidental)) ∧
    (∀ n' ∈ quantize_timing notes resolution,
      n'.tie = false ∧ n'.dot = false) ∧
    ∀ n' ∈ calculate_timing notes, n'.tie = false ∧ n'.dot = false := by
  refine ⟨?_, ?_, ?_, ?_⟩
  · simp [quantize_timing, mkTimingNote, List.map_map, Function.comp]
  · cases hn : notes with
    | nil => rfl
    | cons a l =>
      have hne : ¬(a :: l).isEmpty := by simp
      simp only [calculate_timing, hne, if_false, Bool.false_eq_true]
      exact (adjustNotes_frame _ none).1
  · intro n' hn'
    simp only [quantize_timing, List.mem_map] at hn'
    obtain ⟨note, _, rfl⟩ := hn'
    exact ⟨rfl, rfl⟩
  · intro n' hn'
    cases hn : notes with
    | nil => rw [hn] at hn'; simp [calculate_timing] at hn'
    | cons a l =>
      rw [hn] at hn'
      have hne : ¬(a :: l).isEmpty := by simp
      simp only [calculate_timing, hne, if_false, Bool.false_eq_true] at hn'
      exact (adjustNotes_frame _ none).2 n' hn'

/-! ## C8 -/

/-- C8 counterexample: `preprocess` applies no binarization step at
all — with library primitives for which binarization would visibly
change the image, `preprocess` returns the untouched image while the
spec's claimed step sequence (with best-effort binarization) returns
the changed one. -/
theorem preprocessHasNoBinarizeStep_counterexample :
    preprocess binarizeMarkOracle false 0 = 0 ∧
    preprocessSpecC8 binarizeMarkOracle false 0 = 1 ∧
    (0 : ℕ) ≠ 1 := by
  refine ⟨rfl, ?_, by decide⟩
  rfl

/-- C8 amended: `preprocess` applies, in order, resize-to-target-width
(2048px in high quality, 1024px otherwise), enhancement, auto-rotation
and staff-region cropping — with no binarization step (its result
never depends on the binarization primitives) — and each of those four
sub-steps is best-effort, returning its input unchanged when its
library calls fail; the separate `binarize` method applies adaptive
thresholding then one morphological close then one morphological open,
but propagates failure instead of returning its input. -/
theorem preprocessStepsBestEffort (o : CvOracle) (hq : Bool)
    (img a b c d e : ℕ) (g a2 c2 o2 : ℕ → Option ℕ)
    (ha : o.resizeStep (if hq then 2048 else 1024) a = none)
    (hb : o.enhanceStep b = none) (hc : o.rotateStep c = none)
    (hd : o.cropStep d = none) (he : o.cvtGray e = none) :
    preprocess o hq img
      = crop_staff_area o (auto_rotate o (enhance_image o
          (resize_image o (if hq then 2048 else 1024) img))) ∧
    preprocess { o with
        cvtGray := g
        adaptiveThreshold := a2
        morphClose2 := c2
        morphOpen2 := o2 } hq img = preprocess o hq img ∧
    resize_image o (if hq then 2048 else 1024) a = a ∧
    enhance_image o b = b ∧
    auto_rotate o c = c ∧
    crop_staff_area o d = d ∧
    binarize o e = none ∧
    (∀ img0 gray thr closed, o.cvtGray img0 = some gray →
      o.adaptiveThreshold gray = some thr → o.morphClose2 thr = some closed →
      binarize o img0 = o.morphOpen2 closed) := by
  refine ⟨rfl, rfl, ?_, ?_, ?_, ?_, ?_, ?_⟩
  · simp [resize_image, ha]
  · simp [enhance_image, hb]
  · simp [auto_rotate, hc]
  · simp [crop_staff_area, hd]
  · simp [binarize, he]
  · intro img0 gray thr closed h1 h2 h3
    simp [binarize, h1, h2, h3]

/-- Witness for C8 amended at the all-failing oracle: the best-effort
sub-steps pass the image through unchanged and `binarize` fails. -/
theorem preprocessStepsBestEffort_witness :
    preprocess allFailOracle false 7
      = crop_staff_area allFailOracle (auto_rotate allFailOracle
          (enhance_image allFailOracle
            (resize_image allFailOracle (if false then 2048 else 1024) 7))) ∧
    preprocess { allFailOracle with
        cvtGray := fun _ => none
        adaptiveThreshold := fun _ => none
        morphClose2 := fun _ => none
        morphOpen2 := fun _ => none } false 7 = preprocess allFailOracle false 7 ∧
    resize_image allFailOracle (if false then 2048 else 1024) 1 = 1 ∧
    enhance_image allFailOracle 2 = 2 ∧
    auto_rotate allFailOracle 3 = 3 ∧
    crop_staff_area allFailOracle 4 = 4 ∧
    binarize allFailOracle 5 = none ∧
    (∀ img0 gray thr closed, allFailOracle.cvtGray img0 = some gray →
      allFailOracle.adaptiveThreshold gray = some thr →
      allFailOracle.morphClose2 thr = some closed →
      binarize allFailOracle img0 = allFailOracle.morphOpen2 closed) :=
  preprocessStepsBestEffort allFailOracle false 7 1 2 3 4 5
    (fun _ => none) (fun _ => none) (fun _ => none) (fun _ => none)
    rfl rfl rfl rfl rfl

/-! ## C9 -/

/-- C9: the callback list of the shared `ConversionProgress` instance
is never cleared — `set_total_steps` resets `total_steps`,
`current_step` and `start_time` but not `callbacks` — so the observer
registered for run 1 is invoked again on every step of run 2 of the
same pipeline instance (here: delivery `⟨1, 1, 6⟩` to callback 1 occurs
during run 2, which registered only callback 2), contradicting the
claim that the observer list is reset at the start of every run. -/
theorem staleObserverInvokedInLaterRun :
    ((convertSingleProgress
        (convertSingleProgress ConversionProgress.initial (some 1)).1
        (some 2)).2.map Delivery.callback).contains 1 = true ∧
    (convertSingleProgress
        (convertSingleProgress ConversionProgress.initial (some 1)).1
        (some 2)).1.callbacks = [1, 2] ∧
    (setTotalSteps (addCallback ConversionProgress.initial 1) 6).callbacks
      = [1] := by
  refine ⟨?_, ?_, ?_⟩ <;> decide

end ClefConv
